import Mathlib

/-!
# Verification of `instagrapi/cookie_parser.py` and the session helpers

Shallow embedding of the cookie-parsing utilities of the repository.
Python strings are modelled as `List Char`, Python JSON values as `JValue`,
and Python exceptions as an explicit `Except PyErr` result.  The embedding
follows the source line by line:

* `parse_browser_cookies_json`, `parse_cookies_file`, `extract_cookie_info`
  and `get_sessionid_from_json` come from `instagrapi/cookie_parser.py`.
* `json.loads` is modelled by the executable parser `jsonParse`.
* `cookie.get(k, '').strip()` raises `AttributeError` when the stored field
  is not a string; this is modelled by `PyErr.attributeError`.
-/

namespace CookieParser

/-- Python whitespace characters stripped by `str.strip()` (ASCII subset). -/
def isPySpace (c : Char) : Bool :=
  c = ' ' || c = '\t' || c = '\n' || c = '\r' || c = '\x0b' || c = '\x0c'

/-- `str.lstrip()`. -/
def lstrip (cs : List Char) : List Char := cs.dropWhile isPySpace

/-- `str.rstrip()`. -/
def rstrip (cs : List Char) : List Char := (cs.reverse.dropWhile isPySpace).reverse

/-- `str.strip()` with no arguments: drop leading and trailing whitespace. -/
def pyStrip (cs : List Char) : List Char := rstrip (lstrip cs)

/-- Python `s.split(sep)` for a single-character separator: always returns
at least one (possibly empty) piece. -/
def splitOnChar (sep : Char) : List Char → List (List Char)
  | [] => [[]]
  | c :: cs =>
    match splitOnChar sep cs with
    | [] => [[c]]
    | h :: t => if c = sep then [] :: h :: t else (c :: h) :: t

/-- Python `sep.join(pieces)`. -/
def pyJoin (sep : List Char) : List (List Char) → List Char
  | [] => []
  | [x] => x
  | x :: y :: t => x ++ sep ++ pyJoin sep (y :: t)

/-- Python exceptions raised by the modelled code. -/
inductive PyErr where
  | valueError (msg : String)
  | attributeError (msg : String)
  | fileNotFoundError (msg : String)
  deriving DecidableEq, Repr

/-- JSON values as decoded by `json.loads`; numbers keep their lexeme. -/
inductive JValue where
  | null
  | jbool (b : Bool)
  | jnum (lit : List Char)
  | jstr (s : List Char)
  | jarr (elems : List JValue)
  | jobj (members : List (List Char × JValue))
  deriving Repr

/-- Python `dict.get(key)`: last binding wins, as in a dict built by
successive insertions with duplicate keys. -/
def objGet (kvs : List (List Char × JValue)) (key : List Char) : Option JValue :=
  match kvs with
  | [] => none
  | (k, v) :: rest => match objGet rest key with
    | some w => some w
    | none => if k = key then some v else none

/-! ## A model of `json.loads` -/

/-- JSON structural whitespace. -/
def isJsonWs (c : Char) : Bool := c = ' ' || c = '\t' || c = '\n' || c = '\r'

/-- Skip JSON whitespace. -/
def skipWs (cs : List Char) : List Char := cs.dropWhile isJsonWs

/-- Value of a hexadecimal digit. -/
def hexVal (c : Char) : Option Nat :=
  if '0' ≤ c ∧ c ≤ '9' then some (c.toNat - '0'.toNat)
  else if 'a' ≤ c ∧ c ≤ 'f' then some (c.toNat - 'a'.toNat + 10)
  else if 'A' ≤ c ∧ c ≤ 'F' then some (c.toNat - 'A'.toNat + 10)
  else none

/-- Single-character JSON escapes. -/
def escMap (c : Char) : Option Char :=
  if c = '"' then some '"'
  else if c = '\\' then some '\\'
  else if c = '/' then some '/'
  else if c = 'b' then some '\x08'
  else if c = 'f' then some '\x0c'
  else if c = 'n' then some '\n'
  else if c = 'r' then some '\r'
  else if c = 't' then some '\t'
  else none

/-- Parse the body of a JSON string after the opening quote; returns the
decoded characters and the remaining input. -/
def parseStringRest : Nat → List Char → Option (List Char × List Char)
  | 0, _ => none
  | _ + 1, [] => none
  | fuel + 1, c :: rest =>
    if c = '"' then some ([], rest)
    else if c = '\\' then
      match rest with
      | [] => none
      | e :: rest2 =>
        if e = 'u' then
          match rest2 with
          | h1 :: h2 :: h3 :: h4 :: rest3 =>
            match hexVal h1, hexVal h2, hexVal h3, hexVal h4 with
            | some a, some b, some c2, some d =>
              (parseStringRest fuel rest3).map
                (fun p => (Char.ofNat (a * 4096 + b * 256 + c2 * 16 + d) :: p.1, p.2))
            | _, _, _, _ => none
          | _ => none
        else
          match escMap e with
          | some ec => (parseStringRest fuel rest2).map (fun p => (ec :: p.1, p.2))
          | none => none
    else if c.toNat < 32 then none
    else (parseStringRest fuel rest).map (fun p => (c :: p.1, p.2))

/-- Parse the integer part of a JSON number (`0` or a nonzero-led digit run). -/
def parseIntPart : List Char → Option (List Char × List Char)
  | [] => none
  | c :: rest =>
    if c = '0' then some (['0'], rest)
    else if c.isDigit then
      some (c :: rest.takeWhile Char.isDigit, rest.dropWhile Char.isDigit)
    else none

/-- Parse the optional fraction part, returning its lexeme (possibly empty). -/
def parseFracPart : List Char → Option (List Char × List Char)
  | '.' :: rest =>
    match rest.takeWhile Char.isDigit with
    | [] => none
    | ds => some ('.' :: ds, rest.dropWhile Char.isDigit)
  | cs => some ([], cs)

/-- Parse the optional exponent part, returning its lexeme (possibly empty). -/
def parseExpPart (cs : List Char) : Option (List Char × List Char) :=
  match cs with
  | e :: rest =>
    if e = 'e' ∨ e = 'E' then
      let signed : List Char × List Char :=
        match rest with
        | s :: rest2 => if s = '+' ∨ s = '-' then ([s], rest2) else ([], rest)
        | [] => ([], rest)
      match signed.2.takeWhile Char.isDigit with
      | [] => none
      | ds => some (e :: signed.1 ++ ds, signed.2.dropWhile Char.isDigit)
    else some ([], cs)
  | [] => some ([], cs)

/-- Parse a JSON number, returning its lexeme and the remaining input. -/
def parseNumber (cs : List Char) : Option (List Char × List Char) :=
  let signed : List Char × List Char :=
    match cs with
    | '-' :: rest => (['-'], rest)
    | _ => ([], cs)
  match parseIntPart signed.2 with
  | none => none
  | some (ip, r1) =>
    match parseFracPart r1 with
    | none => none
    | some (fp, r2) =>
      match parseExpPart r2 with
      | none => none
      | some (ep, r3) => some (signed.1 ++ ip ++ fp ++ ep, r3)

mutual

/-- Parse one JSON value at the head of the input. -/
def parseVal : Nat → List Char → Option (JValue × List Char)
  | 0, _ => none
  | _ + 1, [] => none
  | fuel + 1, c :: rest =>
    if c = '"' then
      (parseStringRest (fuel + 1) rest).map (fun p => (JValue.jstr p.1, p.2))
    else if c = '[' then
      match skipWs rest with
      | ']' :: r2 => some (JValue.jarr [], r2)
      | r1 => (parseElems fuel r1).map (fun p => (JValue.jarr p.1, p.2))
    else if c = '{' then
      match skipWs rest with
      | '}' :: r2 => some (JValue.jobj [], r2)
      | r1 => (parseMembers fuel r1).map (fun p => (JValue.jobj p.1, p.2))
    else if c = 't' then
      match rest with
      | 'r' :: 'u' :: 'e' :: r2 => some (JValue.jbool true, r2)
      | _ => none
    else if c = 'f' then
      match rest with
      | 'a' :: 'l' :: 's' :: 'e' :: r2 => some (JValue.jbool false, r2)
      | _ => none
    else if c = 'n' then
      match rest with
      | 'u' :: 'l' :: 'l' :: r2 => some (JValue.null, r2)
      | _ => none
    else if c = '-' ∨ c.isDigit then
      (parseNumber (c :: rest)).map (fun p => (JValue.jnum p.1, p.2))
    else none

/-- Parse a comma-separated list of array elements up to the closing `]`. -/
def parseElems : Nat → List Char → Option (List JValue × List Char)
  | 0, _ => none
  | fuel + 1, cs =>
    match parseVal fuel cs with
    | none => none
    | some (v, r1) =>
      match skipWs r1 with
      | ']' :: r2 => some ([v], r2)
      | ',' :: r2 => (parseElems fuel (skipWs r2)).map (fun p => (v :: p.1, p.2))
      | _ => none

/-- Parse a comma-separated list of object members up to the closing brace. -/
def parseMembers : Nat → List Char → Option (List (List Char × JValue) × List Char)
  | 0, _ => none
  | fuel + 1, cs =>
    match cs with
    | '"' :: r0 =>
      match parseStringRest (fuel + 1) r0 with
      | none => none
      | some (key, r1) =>
        match skipWs r1 with
        | ':' :: r2 =>
          match parseVal fuel (skipWs r2) with
          | none => none
          | some (v, r3) =>
            match skipWs r3 with
            | '}' :: r4 => some ([(key, v)], r4)
            | ',' :: r4 => (parseMembers fuel (skipWs r4)).map (fun p => ((key, v) :: p.1, p.2))
            | _ => none
        | _ => none
    | _ => none

end

/-- Model of Python `json.loads`: parse one document with surrounding
whitespace; `none` models a `JSONDecodeError`. -/
def jsonParse (cs : List Char) : Option JValue :=
  match parseVal (4 * cs.length + 16) (skipWs cs) with
  | some (v, r) => if skipWs r = [] then some v else none
  | none => none

/-! ## `parse_browser_cookies_json` -/

/-- Input of `parse_browser_cookies_json`: `Union[str, List[Dict]]`.
A Python caller passes either a JSON text or an already-decoded list. -/
inductive CookieInput where
  | text (s : List Char)
  | entries (xs : List JValue)

/-- `cookie.get(key, '').strip()`: a missing field defaults to `''`; a field
holding a non-string raises `AttributeError` at `.strip()`. -/
def getStrip (kvs : List (List Char × JValue)) (key : List Char) : Except PyErr (List Char) :=
  match objGet kvs key with
  | none => .ok (pyStrip [])
  | some (.jstr s) => .ok (pyStrip s)
  | some _ => .error (.attributeError "object has no attribute 'strip'")

/-- The essential cookie names kept when `include_all` is false. -/
def essential_cookies : List (List Char) :=
  ["sessionid".toList, "mid".toList, "csrftoken".toList, "ds_user_id".toList,
   "ig_did".toList, "datr".toList, "wd".toList, "rur".toList]

/-- `f"{name}={value}"`. -/
def fmtPair (p : List Char × List Char) : List Char := p.1 ++ '=' :: p.2

/-- The `for cookie in cookies` loop of `parse_browser_cookies_json`:
collects the formatted `name=value` strings of the surviving entries, in
order, raising `AttributeError` when a `name`/`value` field is not a string. -/
def cookieLoop (include_all : Bool) : List JValue → Except PyErr (List (List Char))
  | [] => .ok []
  | c :: rest =>
    match c with
    | .jobj kvs =>
      match getStrip kvs "name".toList with
      | .error e => .error e
      | .ok name =>
        match getStrip kvs "value".toList with
        | .error e => .error e
        | .ok value =>
          if name = [] ∨ value = [] then cookieLoop include_all rest
          else if ¬include_all ∧ ¬essential_cookies.contains name then
            cookieLoop include_all rest
          else (cookieLoop include_all rest).map (fun l => fmtPair (name, value) :: l)
    | _ => cookieLoop include_all rest

/-- `parse_browser_cookies_json` from `instagrapi/cookie_parser.py`. -/
def parse_browser_cookies_json (json_data : CookieInput) (include_all : Bool := true) :
    Except PyErr (List Char) :=
  let decoded : Except PyErr JValue :=
    match json_data with
    | .text s =>
      match jsonParse s with
      | some v => .ok v
      | none => .error (.valueError "Invalid JSON format")
    | .entries xs => .ok (.jarr xs)
  match decoded with
  | .error e => .error e
  | .ok cookies =>
    match cookies with
    | .jarr cs =>
      if cs.isEmpty then .error (.valueError "No cookies found in data")
      else
        match cookieLoop include_all cs with
        | .error e => .error e
        | .ok cookie_pairs =>
          if cookie_pairs = [] then
            .error (.valueError
              "No valid cookies found (cookies must have 'name' and 'value' fields)")
          else .ok (pyJoin "; ".toList cookie_pairs)
    | _ => .error (.valueError "Cookie data must be a JSON array/list")

/-! ## Specification-side view of the surviving entries -/

/-- The surviving `(name, value)` pairs of an entry sequence, as the spec
describes them: non-dict entries skipped, `name`/`value` trimmed, entries
with an empty trimmed name or value skipped, non-essential names skipped
when `include_all` is false, input order kept, duplicates kept. -/
def survivingPairs (include_all : Bool) : List JValue → List (List Char × List Char)
  | [] => []
  | c :: rest =>
    let tail := survivingPairs include_all rest
    match c with
    | .jobj kvs =>
      match getStrip kvs "name".toList, getStrip kvs "value".toList with
      | .ok name, .ok value =>
        if name = [] ∨ value = [] then tail
        else if ¬include_all ∧ ¬essential_cookies.contains name then tail
        else (name, value) :: tail
      | _, _ => tail
    | _ => tail

/-- An entry whose `name` and `value` fields, when present, are strings:
processing it can not raise `AttributeError`. -/
def entryWellTyped (c : JValue) : Bool :=
  match c with
  | .jobj kvs =>
    (match objGet kvs "name".toList with
     | none => true
     | some (.jstr _) => true
     | some _ => false) &&
    (match objGet kvs "value".toList with
     | none => true
     | some (.jstr _) => true
     | some _ => false)
  | _ => true

/-- The value `parse_browser_cookies_json` works on after the
`json.loads` / passthrough step. -/
def decodeInput : CookieInput → Option JValue
  | .text s => jsonParse s
  | .entries xs => some (.jarr xs)

/-- All entries of a decoded entry sequence are well-typed (vacuously true
when the input does not decode to a sequence). -/
def inputWellTyped (inp : CookieInput) : Bool :=
  match decodeInput inp with
  | some (.jarr xs) => xs.all entryWellTyped
  | _ => true

/-- The failure condition of the spec: not valid JSON, not a sequence, an
empty sequence, or no entry with a non-empty trimmed name and value. -/
def invalid_input_condition (inp : CookieInput) : Bool :=
  match decodeInput inp with
  | none => true
  | some (.jarr xs) => xs.isEmpty || (survivingPairs true xs).isEmpty
  | some _ => true

/-! ## `extract_cookie_info` -/

/-- `cookies[key] = value` on a Python dict modelled as an ordered
association list: an existing key keeps its position, its value is updated;
a new key is appended. -/
def dictInsert (k v : List Char) : List (List Char × List Char) → List (List Char × List Char)
  | [] => [(k, v)]
  | (k', v') :: rest => if k' = k then (k', v) :: rest else (k', v') :: dictInsert k v rest

/-- Python dict lookup on the association-list model (keys are unique). -/
def dictGet {α : Type} (d : List (List Char × α)) (k : List Char) : Option α :=
  match d with
  | [] => none
  | (k', v) :: rest => if k' = k then some v else dictGet rest k

/-- One iteration of the `for pair in cookie_string.split(';')` loop. -/
def extractStep (d : List (List Char × List Char)) (seg : List Char) :
    List (List Char × List Char) :=
  let pair := pyStrip seg
  if pair.contains '=' then
    dictInsert (pyStrip (pair.takeWhile (fun c => c ≠ '=')))
      (pyStrip ((pair.dropWhile (fun c => c ≠ '=')).tail)) d
  else d

/-- `extract_cookie_info` from `instagrapi/cookie_parser.py`. -/
def extract_cookie_info (cookie_string : List Char) : List (List Char × List Char) :=
  (splitOnChar ';' cookie_string).foldl extractStep []

/-! ## `get_sessionid_from_json` -/

/-- `isinstance(cookie, dict) and cookie.get('name') == 'sessionid'`. -/
def isSessionidEntry (c : JValue) : Bool :=
  match c with
  | .jobj kvs =>
    match objGet kvs "name".toList with
    | some (.jstr s) => s = "sessionid".toList
    | _ => false
  | _ => false

/-- The `for cookie in cookies` loop of `get_sessionid_from_json`: returns
`cookie.get('value')` of the first matching entry (which may itself be
missing, i.e. `none`). -/
def findSessionid : List JValue → Option JValue
  | [] => none
  | c :: rest =>
    if isSessionidEntry c then
      match c with
      | .jobj kvs => objGet kvs "value".toList
      | _ => none
    else findSessionid rest

/-- `get_sessionid_from_json` from `instagrapi/cookie_parser.py`; always
returns (never raises), `none` modelling Python `None`. -/
def get_sessionid_from_json (json_data : CookieInput) : Option JValue :=
  let decoded : Option JValue :=
    match json_data with
    | .text s => jsonParse s
    | .entries xs => some (.jarr xs)
  match decoded with
  | none => none
  | some (.jarr cs) => findSessionid cs
  | some _ => none

/-! ## `parse_cookies_file` -/

/-- The non-blank stripped lines of a file's text. -/
def fileLines (content : List Char) : List (List Char) :=
  ((splitOnChar '\n' content).map pyStrip).filter (fun l => l ≠ [])

/-- The `for i, line_data in enumerate(lines, 1)` loop: a line failing with
`ValueError` is skipped; any other exception propagates. -/
def batchLoop (include_all : Bool) : List (List Char) → Except PyErr (List (List Char))
  | [] => .ok []
  | l :: rest =>
    match parse_browser_cookies_json (.text l) include_all with
    | .ok s => (batchLoop include_all rest).map (fun t => s :: t)
    | .error (.valueError _) => batchLoop include_all rest
    | .error e => .error e

/-- `parse_cookies_file` from `instagrapi/cookie_parser.py`.  The filesystem
is modelled by `content`: `none` means the file does not exist, `some c`
that the file holds the text `c`. -/
def parse_cookies_file (file_path : String) (content : Option (List Char))
    (line_number : Option Int := none) (include_all : Bool := true) :
    Except PyErr (List Char ⊕ List (List Char)) :=
  match content with
  | none => .error (.fileNotFoundError ("Cookie file not found: " ++ file_path))
  | some c =>
    let lines := fileLines c
    if lines = [] then
      .error (.valueError ("No cookie data found in file: " ++ file_path))
    else
      match line_number with
      | some n =>
        if n < 1 ∨ n > (lines.length : Int) then
          .error (.valueError ("Line number " ++ toString n ++
            " out of range (file has " ++ toString lines.length ++ " lines)"))
        else
          match parse_browser_cookies_json (.text (lines.getD (n - 1).toNat [])) include_all with
          | .ok s => .ok (.inl s)
          | .error e => .error e
      | none =>
        match batchLoop include_all lines with
        | .error e => .error e
        | .ok results =>
          if results = [] then
            .error (.valueError "Failed to parse any valid cookies from file")
          else .ok (.inr results)

/-! ## Sessionid validation and session restoration

`login_by_cookie` and `restore_settings` live in the wrapped client
library, whose code is not part of this repository's sources; only their
tests and callers are.  They are therefore modelled from the spec. -/

/-- `s.startswith(pat)` on character lists. -/
def startsWith : List Char → List Char → Bool
  | [], _ => true
  | _ :: _, [] => false
  | p :: ps, c :: cs => p = c && startsWith ps cs

/-- Python `pat in s`: some suffix of `s` starts with `pat`. -/
def containsSeq (pat : List Char) : List Char → Bool
  | [] => pat.isEmpty
  | c :: rest => startsWith pat (c :: rest) || containsSeq pat rest

/-- The leading decimal-digit run of a string. -/
def leadingDigits (s : List Char) : List Char := s.takeWhile Char.isDigit

/-- Modelled from the spec: the user id of a sessionid is its leading run
of decimal digits, which must be non-empty and immediately followed by a
non-digit separator (so the run must not exhaust the string). -/
def extract_user_id (sid : List Char) : Option (List Char) :=
  let ds := leadingDigits sid
  if ds.isEmpty then none
  else if ds.length = sid.length then none
  else some ds

/-- Modelled from the spec: the sessionid validation of `login_by_cookie`
(implemented in the wrapped library, absent from the sources).  A cookie
string is accepted iff it contains a `sessionid` entry whose raw value has
at least the minimum length and yields a user id; the user id is returned.
The spec fixes no numeric minimum length, so it is a parameter. -/
def login_by_cookie (minLen : Nat) (cookie : List Char) : Except PyErr (List Char) :=
  if (pyStrip cookie).isEmpty then
    .error (.valueError "Cookie string cannot be empty")
  else
    match dictGet (extract_cookie_info cookie) "sessionid".toList with
    | none => .error (.valueError "No 'sessionid' found in cookie string")
    | some sid =>
      if sid.length < minLen then .error (.valueError "Invalid sessionid length")
      else
        match extract_user_id sid with
        | none => .error (.valueError "Cannot extract user_id from sessionid")
        | some uid => .ok uid

/-- The on-disk session store: the identity index (`index.json`, identity
key → session directory) and the saved settings records keyed by session
directory. -/
structure SessionStore where
  index : List (List Char × List Char)
  files : List (List Char × JValue)

/-- The identifier accepted by `restore_settings`: a string or an int. -/
inductive Identifier where
  | ofString (s : List Char)
  | ofInt (n : Nat)

/-- Look an identity key up in the index and load the settings record the
index entry points at. -/
def lookupSession (store : SessionStore) (key : List Char) : Except PyErr JValue :=
  match dictGet store.index key with
  | none => .error (.fileNotFoundError "No session found for identifier")
  | some dir =>
    match dictGet store.files dir with
    | none => .error (.fileNotFoundError "Settings file not found")
    | some record => .ok record

/-- Modelled from the spec: `restore_settings` (implemented in the wrapped
library, absent from the sources).  A cookie-shaped identifier (contains
`sessionid=`) is resolved through its sessionid's leading digit run; an int
is stringified; any other string is looked up directly in the index. -/
def restore_settings (store : SessionStore) (identifier : Identifier) : Except PyErr JValue :=
  match identifier with
  | .ofInt n => lookupSession store (toString n).toList
  | .ofString s =>
    if containsSeq "sessionid=".toList s then
      match dictGet (extract_cookie_info s) "sessionid".toList with
      | none => .error (.fileNotFoundError "No session found for identifier")
      | some sid =>
        let ds := leadingDigits sid
        if ds.isEmpty then .error (.fileNotFoundError "No session found for identifier")
        else lookupSession store ds
    else lookupSession store s

/-- Does a result model a raised `AttributeError`? -/
def isAttributeError {α : Type} : Except PyErr α → Bool
  | .error (.attributeError _) => true
  | _ => false

/-! ## Lemmas about `strip` -/

theorem lstrip_head {l : List Char} {c : Char} (h : (lstrip l).head? = some c) :
    isPySpace c = false := by
  have := List.head?_dropWhile_not isPySpace l
  rw [lstrip] at h
  rw [h] at this
  exact this

theorem lstrip_eq_self {l : List Char}
    (h : ∀ c, l.head? = some c → isPySpace c = false) : lstrip l = l := by
  cases l with
  | nil => rfl
  | cons x xs =>
    have hx := h x rfl
    simp [lstrip, List.dropWhile_cons, hx]

theorem rstrip_eq_self {l : List Char}
    (h : ∀ c, l.getLast? = some c → isPySpace c = false) : rstrip l = l := by
  rw [rstrip]
  have : l.reverse.dropWhile isPySpace = l.reverse := by
    cases hrev : l.reverse with
    | nil => rfl
    | cons x xs =>
      have hx : l.getLast? = some x := by
        rw [← List.head?_reverse, hrev, List.head?_cons]
      simp [List.dropWhile_cons, h x hx]
  rw [this, List.reverse_reverse]

theorem pyStrip_eq_self {l : List Char}
    (h1 : ∀ c, l.head? = some c → isPySpace c = false)
    (h2 : ∀ c, l.getLast? = some c → isPySpace c = false) : pyStrip l = l := by
  rw [pyStrip, lstrip_eq_self h1, rstrip_eq_self h2]

theorem rstrip_eq_take (l : List Char) : ∃ t, l = rstrip l ++ t := by
  refine ⟨(l.reverse.takeWhile isPySpace).reverse, ?_⟩
  have := List.takeWhile_append_dropWhile (p := isPySpace) (l := l.reverse)
  calc l = l.reverse.reverse := by rw [List.reverse_reverse]
    _ = (l.reverse.takeWhile isPySpace ++ l.reverse.dropWhile isPySpace).reverse := by rw [this]
    _ = rstrip l ++ (l.reverse.takeWhile isPySpace).reverse := by
        rw [List.reverse_append]; rfl

theorem pyStrip_head {l : List Char} {c : Char} (h : (pyStrip l).head? = some c) :
    isPySpace c = false := by
  rw [pyStrip] at h
  obtain ⟨t, ht⟩ := rstrip_eq_take (lstrip l)
  apply lstrip_head (l := l)
  rw [show lstrip l = rstrip (lstrip l) ++ t from ht, List.head?_append, h]
  rfl

theorem pyStrip_getLast {l : List Char} {c : Char} (h : (pyStrip l).getLast? = some c) :
    isPySpace c = false := by
  rw [pyStrip, rstrip, List.getLast?_reverse] at h
  have := List.head?_dropWhile_not isPySpace (lstrip l).reverse
  rw [h] at this
  exact this

theorem pyStrip_idem (l : List Char) : pyStrip (pyStrip l) = pyStrip l :=
  pyStrip_eq_self (fun _ h => pyStrip_head h) (fun _ h => pyStrip_getLast h)

theorem pyStrip_cons_space {c : Char} {l : List Char} (h : isPySpace c = true) :
    pyStrip (c :: l) = pyStrip l := by
  simp [pyStrip, lstrip, List.dropWhile_cons, h]

theorem mem_pyStrip {c : Char} {l : List Char} (h : c ∈ pyStrip l) : c ∈ l := by
  rw [pyStrip, rstrip] at h
  rw [List.mem_reverse] at h
  have h1 := (List.dropWhile_sublist (l := (lstrip l).reverse) isPySpace).subset h
  rw [List.mem_reverse] at h1
  exact (List.dropWhile_sublist (l := l) isPySpace).subset h1

/-! ## Lemmas about `splitOnChar` and `pyJoin` -/

theorem splitOnChar_ne_nil (sep : Char) (l : List Char) : splitOnChar sep l ≠ [] := by
  cases l with
  | nil => simp [splitOnChar]
  | cons x xs =>
    rw [splitOnChar]
    cases splitOnChar sep xs with
    | nil => simp
    | cons h t => by_cases hx : x = sep <;> simp [hx]

theorem splitOnChar_no_sep {sep : Char} {l : List Char} (h : ∀ c ∈ l, c ≠ sep) :
    splitOnChar sep l = [l] := by
  induction l with
  | nil => rfl
  | cons x xs ih =>
    have hx : ¬ x = sep := h x (List.mem_cons_self x xs)
    have hxs := ih (fun c hc => h c (List.mem_cons_of_mem x hc))
    rw [splitOnChar, hxs]
    simp [hx]

theorem splitOnChar_append {sep : Char} {a r : List Char} (h : ∀ c ∈ a, c ≠ sep) :
    splitOnChar sep (a ++ sep :: r) = a :: splitOnChar sep r := by
  induction a with
  | nil =>
    rw [List.nil_append, splitOnChar]
    cases hs : splitOnChar sep r with
    | nil => exact absurd hs (splitOnChar_ne_nil sep r)
    | cons hh tt => simp
  | cons x xs ih =>
    have hx : ¬ x = sep := h x (List.mem_cons_self x xs)
    have hxs := ih (fun c hc => h c (List.mem_cons_of_mem x hc))
    rw [List.cons_append, splitOnChar, hxs]
    simp [hx]

theorem mem_of_mem_splitOnChar {sep c : Char} {seg l : List Char}
    (hseg : seg ∈ splitOnChar sep l) (hc : c ∈ seg) : c ∈ l := by
  induction l generalizing seg with
  | nil =>
    simp [splitOnChar] at hseg
    subst hseg
    simp at hc
  | cons x xs ih =>
    rw [splitOnChar] at hseg
    cases hs : splitOnChar sep xs with
    | nil => exact absurd hs (splitOnChar_ne_nil sep xs)
    | cons hh tt =>
      rw [hs] at hseg
      by_cases hx : x = sep
      · simp [hx] at hseg
        rcases hseg with h1 | h2 | h3
        · subst h1; simp at hc
        · exact List.mem_cons_of_mem x (ih (by rw [hs]; exact List.mem_cons_self hh tt) (h2 ▸ hc))
        · exact List.mem_cons_of_mem x (ih (by rw [hs]; exact List.mem_cons_of_mem hh h3) hc)
      · simp [hx] at hseg
        rcases hseg with h1 | h2
        · subst h1
          rcases List.mem_cons.mp hc with h3 | h4
          · exact h3 ▸ List.mem_cons_self x xs
          · exact List.mem_cons_of_mem x
              (ih (by rw [hs]; exact List.mem_cons_self hh tt) h4)
        · exact List.mem_cons_of_mem x (ih (by rw [hs]; exact List.mem_cons_of_mem hh h2) hc)

theorem split_pyJoin {a : List Char} {ps : List (List Char)}
    (ha : ∀ c ∈ a, c ≠ ';') (hps : ∀ p ∈ ps, ∀ c ∈ p, c ≠ ';') :
    splitOnChar ';' (pyJoin "; ".toList (a :: ps)) = a :: ps.map (fun p => ' ' :: p) := by
  induction ps generalizing a with
  | nil => simpa using splitOnChar_no_sep ha
  | cons b t ih =>
    have hstep : pyJoin "; ".toList (a :: b :: t) =
        a ++ ';' :: ' ' :: pyJoin "; ".toList (b :: t) := by
      show a ++ [';', ' '] ++ pyJoin "; ".toList (b :: t) = _
      rw [List.append_assoc]
      rfl
    have hb := ih (a := b) (hps b (List.mem_cons_self b t))
      (fun p hp => hps p (List.mem_cons_of_mem b hp))
    rw [hstep, splitOnChar_append ha, splitOnChar, hb]
    simp

/-! ## Lemmas about the dict model -/

theorem dictGet_append {α : Type} {d1 d2 : List (List Char × α)} {k : List Char} :
    dictGet (d1 ++ d2) k = (dictGet d1 k).or (dictGet d2 k) := by
  induction d1 with
  | nil => simp [dictGet]
  | cons p rest ih =>
    rw [List.cons_append, dictGet]
    by_cases hk : p.1 = k
    · simp [dictGet, hk]
    · simp only [dictGet, hk, if_false]
      rw [ih]

theorem dictInsert_of_get_none {d : List (List Char × List Char)} {k v : List Char}
    (h : dictGet d k = none) : dictInsert k v d = d ++ [(k, v)] := by
  induction d with
  | nil => rfl
  | cons p rest ih =>
    rw [dictGet] at h
    by_cases hk : p.1 = k
    · simp [hk] at h
    · rw [if_neg hk] at h
      show dictInsert k v (p :: rest) = _
      rw [show (p : List Char × List Char) = (p.1, p.2) from rfl, dictInsert, if_neg hk,
        ih h, List.cons_append]

theorem foldl_dictInsert {ps d : List (List Char × List Char)}
    (hnd : (ps.map Prod.fst).Nodup) (hd : ∀ p ∈ ps, dictGet d p.1 = none) :
    ps.foldl (fun acc p => dictInsert p.1 p.2 acc) d = d ++ ps := by
  induction ps generalizing d with
  | nil => simp
  | cons p rest ih =>
    rw [List.foldl_cons, dictInsert_of_get_none (hd p (List.mem_cons_self p rest))]
    rw [List.map_cons, List.nodup_cons] at hnd
    rw [ih hnd.2 ?_, List.append_assoc, List.singleton_append]
    intro q hq
    rw [dictGet_append, hd q (List.mem_cons_of_mem p hq)]
    have hne : ¬ p.1 = q.1 := by
      intro hcontra
      exact hnd.1 (hcontra ▸ List.mem_map_of_mem Prod.fst hq)
    simp [dictGet, hne]

/-! ## Lemmas about `extractStep` -/

theorem takeWhile_eq_left {n v : List Char} (h : ∀ c ∈ n, c ≠ '=') :
    (n ++ '=' :: v).takeWhile (fun c => c ≠ '=') = n := by
  induction n with
  | nil => simp
  | cons x xs ih =>
    have hx : x ≠ '=' := h x (List.mem_cons_self x xs)
    rw [List.cons_append, List.takeWhile_cons_of_pos (by simpa using hx),
      ih (fun c hc => h c (List.mem_cons_of_mem x hc))]

theorem dropWhile_eq_right {n v : List Char} (h : ∀ c ∈ n, c ≠ '=') :
    (n ++ '=' :: v).dropWhile (fun c => c ≠ '=') = '=' :: v := by
  induction n with
  | nil => simp
  | cons x xs ih =>
    have hx : x ≠ '=' := h x (List.mem_cons_self x xs)
    rw [List.cons_append, List.dropWhile_cons_of_pos (by simpa using hx),
      ih (fun c hc => h c (List.mem_cons_of_mem x hc))]

theorem pyStrip_fmtPair {p : List Char × List Char}
    (hn : pyStrip p.1 = p.1) (hv : pyStrip p.2 = p.2)
    (hnn : p.1 ≠ []) (hvn : p.2 ≠ []) : pyStrip (fmtPair p) = fmtPair p := by
  apply pyStrip_eq_self
  · intro c hc
    have hhd : (fmtPair p).head? = p.1.head? := by
      cases hp : p.1 with
      | nil => exact absurd hp hnn
      | cons x xs => rw [fmtPair, hp, List.cons_append, List.head?_cons, List.head?_cons]
    apply pyStrip_head (l := p.1)
    rw [hn, ← hhd, hc]
  · intro c hc
    have hlst : (fmtPair p).getLast? = p.2.getLast? := by
      cases hp : p.2 with
      | nil => exact absurd hp hvn
      | cons w ws =>
        rw [fmtPair, hp, List.getLast?_append, List.getLast?_cons_cons]
        have : (w :: ws).getLast? = some ((w :: ws).getLast (by simp)) :=
          List.getLast?_eq_getLast _ _
        rw [this]
        rfl
    apply pyStrip_getLast (l := p.2)
    rw [hv, ← hlst, hc]

theorem extractStep_space {d : List (List Char × List Char)} {seg : List Char} :
    extractStep d (' ' :: seg) = extractStep d seg := by
  rw [extractStep, extractStep, pyStrip_cons_space (by rfl)]

theorem extractStep_pair {d : List (List Char × List Char)} {p : List Char × List Char}
    (hn : pyStrip p.1 = p.1) (hv : pyStrip p.2 = p.2)
    (hnn : p.1 ≠ []) (hvn : p.2 ≠ [])
    (hne : ∀ c ∈ p.1, c ≠ '=') :
    extractStep d (fmtPair p) = dictInsert p.1 p.2 d := by
  rw [extractStep, pyStrip_fmtPair hn hv hnn hvn]
  have hct : (fmtPair p).contains '=' = true := by
    simp only [fmtPair, List.contains, List.elem_eq_mem, decide_eq_true_eq]
    exact List.mem_append_right _ (List.mem_cons_self _ _)
  rw [if_pos hct]
  show dictInsert (pyStrip ((p.1 ++ '=' :: p.2).takeWhile _))
      (pyStrip (((p.1 ++ '=' :: p.2).dropWhile _).tail)) d = _
  rw [takeWhile_eq_left hne, dropWhile_eq_right hne, List.tail_cons, hn, hv]

theorem foldl_extractStep_spaced {ps d : List (List Char × List Char)}
    (hstr : ∀ p ∈ ps, pyStrip p.1 = p.1 ∧ pyStrip p.2 = p.2 ∧ p.1 ≠ [] ∧ p.2 ≠ [])
    (hne : ∀ p ∈ ps, ∀ c ∈ p.1, c ≠ '=') :
    (ps.map (fun p => ' ' :: fmtPair p)).foldl extractStep d =
      ps.foldl (fun acc p => dictInsert p.1 p.2 acc) d := by
  induction ps generalizing d with
  | nil => rfl
  | cons p rest ih =>
    obtain ⟨h1, h2, h3, h4⟩ := hstr p (List.mem_cons_self p rest)
    rw [List.map_cons, List.foldl_cons, List.foldl_cons, extractStep_space,
      extractStep_pair h1 h2 h3 h4 (hne p (List.mem_cons_self p rest))]
    exact ih (fun q hq => hstr q (List.mem_cons_of_mem p hq))
      (fun q hq => hne q (List.mem_cons_of_mem p hq))

/-- Round-trip core: extracting from a `"; "`-join of formatted pairs with
clean names and values recovers exactly those pairs. -/
theorem extract_pyJoin {ps : List (List Char × List Char)}
    (hne : ps ≠ [])
    (hstr : ∀ p ∈ ps, pyStrip p.1 = p.1 ∧ pyStrip p.2 = p.2 ∧ p.1 ≠ [] ∧ p.2 ≠ [])
    (hsem : ∀ p ∈ ps, (∀ c ∈ p.1, c ≠ ';' ∧ c ≠ '=') ∧ ∀ c ∈ p.2, c ≠ ';')
    (hnd : (ps.map Prod.fst).Nodup) :
    extract_cookie_info (pyJoin "; ".toList (ps.map fmtPair)) = ps := by
  have hclean : ∀ p ∈ ps, ∀ c ∈ fmtPair p, c ≠ ';' := by
    intro p hp c hc
    rw [fmtPair] at hc
    rcases List.mem_append.mp hc with h1 | h2
    · exact ((hsem p hp).1 c h1).1
    · rcases List.mem_cons.mp h2 with h3 | h4
      · subst h3; decide
      · exact (hsem p hp).2 c h4
  cases ps with
  | nil => exact absurd rfl hne
  | cons p rest =>
    obtain ⟨h1, h2, h3, h4⟩ := hstr p (List.mem_cons_self p rest)
    rw [List.map_cons, extract_cookie_info,
      split_pyJoin (hclean p (List.mem_cons_self p rest))
        (fun q hq => by
          obtain ⟨r, hr, hrq⟩ := List.mem_map.mp hq
          exact hrq ▸ hclean r (List.mem_cons_of_mem p hr)),
      List.foldl_cons,
      extractStep_pair h1 h2 h3 h4 (fun c hc => ((hsem p (List.mem_cons_self p rest)).1 c hc).2),
      List.map_map]
    rw [List.map_cons, List.nodup_cons] at hnd
    have hfold := @foldl_extractStep_spaced rest (dictInsert p.1 p.2 [])
      (fun q hq => hstr q (List.mem_cons_of_mem p hq))
      (fun q hq c hc => ((hsem q (List.mem_cons_of_mem p hq)).1 c hc).2)
    rw [show ((fun q => ' ' :: q) ∘ fmtPair) = (fun q => ' ' :: fmtPair q) from rfl, hfold]
    have : dictInsert p.1 p.2 [] = [p] := rfl
    rw [this, foldl_dictInsert hnd.2 ?_, List.singleton_append]
    intro q hq
    have hne' : ¬ p.1 = q.1 := fun hcontra =>
      hnd.1 (hcontra ▸ List.mem_map_of_mem Prod.fst hq)
    simp [dictGet, hne']

/-! ## Lemmas about `cookieLoop` and `survivingPairs` -/

theorem getStrip_ok_of_wellTyped {kvs : List (List Char × JValue)} {key : List Char}
    (h : (match objGet kvs key with
          | none => true
          | some (.jstr _) => true
          | some _ => false) = true) :
    ∃ s, getStrip kvs key = .ok s := by
  cases hg : objGet kvs key with
  | none => exact ⟨_, by rw [getStrip, hg]⟩
  | some w =>
    rw [hg] at h
    cases w <;> simp at h
    exact ⟨_, by rw [getStrip, hg]⟩

theorem getStrip_ok_field {kvs : List (List Char × JValue)} {key s : List Char}
    (h : getStrip kvs key = .ok s) :
    (match objGet kvs key with
     | none => true
     | some (.jstr _) => true
     | some _ => false) = true := by
  cases hg : objGet kvs key with
  | none => rfl
  | some w =>
    rw [getStrip, hg] at h
    cases w <;> simp_all

theorem getStrip_ok_strip {kvs : List (List Char × JValue)} {key s : List Char}
    (h : getStrip kvs key = .ok s) : pyStrip s = s := by
  cases hg : objGet kvs key with
  | none =>
    simp only [getStrip, hg] at h
    cases h
    exact pyStrip_idem []
  | some w =>
    cases w with
    | jstr str =>
      simp only [getStrip, hg] at h
      cases h
      exact pyStrip_idem str
    | null => simp only [getStrip, hg] at h; exact Except.noConfusion h
    | jbool b => simp only [getStrip, hg] at h; exact Except.noConfusion h
    | jnum lit => simp only [getStrip, hg] at h; exact Except.noConfusion h
    | jarr elems => simp only [getStrip, hg] at h; exact Except.noConfusion h
    | jobj mem2 => simp only [getStrip, hg] at h; exact Except.noConfusion h

theorem cookieLoop_of_wellTyped {i : Bool} {xs : List JValue}
    (h : ∀ c ∈ xs, entryWellTyped c = true) :
    cookieLoop i xs = .ok ((survivingPairs i xs).map fmtPair) := by
  induction xs with
  | nil => rfl
  | cons c rest ih =>
    have hrest := ih (fun d hd => h d (List.mem_cons_of_mem c hd))
    have hc := h c (List.mem_cons_self c rest)
    cases c with
    | jobj kvs =>
      rw [entryWellTyped, Bool.and_eq_true] at hc
      obtain ⟨name, hn⟩ := getStrip_ok_of_wellTyped hc.1
      obtain ⟨value, hv⟩ := getStrip_ok_of_wellTyped hc.2
      simp only [cookieLoop, survivingPairs, hn, hv]
      by_cases h1 : name = [] ∨ value = []
      · simp only [if_pos h1]
        exact hrest
      · rw [if_neg h1, if_neg h1]
        by_cases h2 : ¬i = true ∧ ¬essential_cookies.contains name = true
        · simp only [if_pos h2]
          exact hrest
        · simp only [if_neg h2, hrest, Except.map, List.map_cons]
    | null => exact hrest
    | jbool b => exact hrest
    | jnum lit => exact hrest
    | jstr s => exact hrest
    | jarr elems => exact hrest

theorem cookieLoop_cons_ok {i : Bool} {c : JValue} {rest : List JValue}
    {fs : List (List Char)} (h : cookieLoop i (c :: rest) = .ok fs) :
    entryWellTyped c = true ∧ ∃ fs', cookieLoop i rest = .ok fs' := by
  cases c with
  | jobj kvs =>
    simp only [cookieLoop] at h
    cases hn : getStrip kvs "name".toList with
    | error e => rw [hn] at h; dsimp only at h; exact Except.noConfusion h
    | ok name =>
      rw [hn] at h
      dsimp only at h
      cases hv : getStrip kvs "value".toList with
      | error e => rw [hv] at h; dsimp only at h; exact Except.noConfusion h
      | ok value =>
        rw [hv] at h
        dsimp only at h
        refine ⟨?_, ?_⟩
        · rw [entryWellTyped, Bool.and_eq_true]
          exact ⟨getStrip_ok_field hn, getStrip_ok_field hv⟩
        · by_cases h1 : name = [] ∨ value = []
          · rw [if_pos h1] at h
            exact ⟨fs, h⟩
          · rw [if_neg h1] at h
            by_cases h2 : ¬i = true ∧ ¬essential_cookies.contains name = true
            · rw [if_pos h2] at h
              exact ⟨fs, h⟩
            · rw [if_neg h2] at h
              cases hr : cookieLoop i rest with
              | error e => rw [hr] at h; exact Except.noConfusion h
              | ok fs' => exact ⟨fs', rfl⟩

  | null => exact ⟨rfl, fs, h⟩
  | jbool b => exact ⟨rfl, fs, h⟩
  | jnum lit => exact ⟨rfl, fs, h⟩
  | jstr s => exact ⟨rfl, fs, h⟩
  | jarr elems => exact ⟨rfl, fs, h⟩

theorem cookieLoop_ok_wellTyped {i : Bool} {xs : List JValue} {fs : List (List Char)}
    (h : cookieLoop i xs = .ok fs) : ∀ c ∈ xs, entryWellTyped c = true := by
  induction xs generalizing fs with
  | nil => intro c hc; simp at hc
  | cons c rest ih =>
    obtain ⟨hhd, fs', htl⟩ := cookieLoop_cons_ok h
    intro d hd
    rcases List.mem_cons.mp hd with rfl | hd'
    · exact hhd
    · exact ih htl d hd'

theorem cookieLoop_ok_eq {i : Bool} {xs : List JValue} {fs : List (List Char)}
    (h : cookieLoop i xs = .ok fs) : fs = (survivingPairs i xs).map fmtPair := by
  have := cookieLoop_of_wellTyped (i := i) (cookieLoop_ok_wellTyped h)
  rw [this] at h
  exact (Except.ok.inj h).symm

theorem survivingPairs_false_eq_filter (xs : List JValue) :
    survivingPairs false xs =
      (survivingPairs true xs).filter (fun p => essential_cookies.contains p.1) := by
  induction xs with
  | nil => rfl
  | cons c rest ih =>
    cases c with
    | jobj kvs =>
      simp only [survivingPairs]
      cases hn : getStrip kvs "name".toList with
      | error e => exact ih
      | ok name =>
        cases hv : getStrip kvs "value".toList with
        | error e => exact ih
        | ok value =>
          dsimp only
          by_cases h1 : name = [] ∨ value = []
          · simp only [if_pos h1]
            exact ih
          · rw [if_neg h1, if_neg h1]
            by_cases h2 : essential_cookies.contains name = true
            · have hm : name ∈ essential_cookies := by
                rw [List.contains] at h2
                exact List.mem_of_elem_eq_true h2
              have hmem : ((fun p => essential_cookies.contains p.1)
                  ((name, value) : List Char × List Char)) = true := h2
              rw [if_neg (by simp [hm]), if_neg (by simp), List.filter_cons, if_pos hmem, ih]
            · have hm : name ∉ essential_cookies := by
                intro hc
                rw [List.contains] at h2
                exact h2 (List.elem_eq_true_of_mem hc)
              have hmem : ¬((fun p => essential_cookies.contains p.1)
                  ((name, value) : List Char × List Char)) = true := h2
              rw [if_pos (by simp [hm]), if_neg (by simp), List.filter_cons, if_neg hmem, ih]
    | null => exact ih
    | jbool b => exact ih
    | jnum lit => exact ih
    | jstr s => exact ih
    | jarr elems => exact ih

theorem survivingPairs_stripped {i : Bool} {xs : List JValue} :
    ∀ p ∈ survivingPairs i xs,
      pyStrip p.1 = p.1 ∧ pyStrip p.2 = p.2 ∧ p.1 ≠ [] ∧ p.2 ≠ [] := by
  induction xs with
  | nil => intro p hp; simp [survivingPairs] at hp
  | cons c rest ih =>
    intro p hp
    cases c with
    | jobj kvs =>
      simp only [survivingPairs] at hp
      cases hn : getStrip kvs "name".toList with
      | error e => rw [hn] at hp; exact ih p hp
      | ok name =>
        rw [hn] at hp
        cases hv : getStrip kvs "value".toList with
        | error e => rw [hv] at hp; exact ih p hp
        | ok value =>
          rw [hv] at hp
          dsimp only at hp
          by_cases h1 : name = [] ∨ value = []
          · rw [if_pos h1] at hp
            exact ih p hp
          · rw [if_neg h1] at hp
            by_cases h2 : ¬i = true ∧ ¬essential_cookies.contains name = true
            · rw [if_pos h2] at hp
              exact ih p hp
            · rw [if_neg h2] at hp
              rcases List.mem_cons.mp hp with rfl | hp'
              · push_neg at h1
                exact ⟨getStrip_ok_strip hn, getStrip_ok_strip hv, h1.1, h1.2⟩
              · exact ih p hp'
    | null => exact ih p hp
    | jbool b => exact ih p hp
    | jnum lit => exact ih p hp
    | jstr s => exact ih p hp
    | jarr elems => exact ih p hp

/-! ## Lemmas about `parse_browser_cookies_json` -/

theorem parse_decoded (inp : CookieInput) (i : Bool) :
    parse_browser_cookies_json inp i =
      match decodeInput inp with
      | none => .error (.valueError "Invalid JSON format")
      | some (.jarr cs) =>
        if cs.isEmpty then .error (.valueError "No cookies found in data")
        else
          match cookieLoop i cs with
          | .error e => .error e
          | .ok pairs =>
            if pairs = [] then
              .error (.valueError
                "No valid cookies found (cookies must have 'name' and 'value' fields)")
            else .ok (pyJoin "; ".toList pairs)
      | some _ => .error (.valueError "Cookie data must be a JSON array/list") := by
  cases inp with
  | text s =>
    rw [parse_browser_cookies_json]
    simp only [decodeInput]
    cases jsonParse s with
    | none => rfl
    | some v => cases v <;> rfl
  | entries xs => rfl

theorem cookieLoop_error_attr {i : Bool} {xs : List JValue} {e : PyErr}
    (h : cookieLoop i xs = .error e) : ∃ m, e = .attributeError m := by
  induction xs with
  | nil => exact Except.noConfusion h
  | cons c rest ih =>
    cases c with
    | jobj kvs =>
      simp only [cookieLoop] at h
      cases hn : getStrip kvs "name".toList with
      | error e' =>
        rw [hn] at h
        dsimp only at h
        cases hg : objGet kvs "name".toList <;> simp only [getStrip, hg] at hn
        · exact Except.noConfusion hn
        · rename_i w
          cases w <;> simp only at hn <;> try exact Except.noConfusion hn
          all_goals
            exact ⟨_, by cases hn; exact (Except.error.inj h).symm⟩
      | ok name =>
        rw [hn] at h
        dsimp only at h
        cases hv : getStrip kvs "value".toList with
        | error e' =>
          rw [hv] at h
          dsimp only at h
          cases hg : objGet kvs "value".toList <;> simp only [getStrip, hg] at hv
          · exact Except.noConfusion hv
          · rename_i w
            cases w <;> simp only at hv <;> try exact Except.noConfusion hv
            all_goals
              exact ⟨_, by cases hv; exact (Except.error.inj h).symm⟩
        | ok value =>
          rw [hv] at h
          dsimp only at h
          by_cases h1 : name = [] ∨ value = []
          · rw [if_pos h1] at h
            exact ih h
          · rw [if_neg h1] at h
            by_cases h2 : ¬i = true ∧ ¬essential_cookies.contains name = true
            · rw [if_pos h2] at h
              exact ih h
            · rw [if_neg h2] at h
              cases hr : cookieLoop i rest with
              | error e'' =>
                rw [hr] at h
                have heq : e'' = e := Except.error.inj h
                subst heq
                exact ih hr
              | ok fs => rw [hr] at h; exact Except.noConfusion h
    | null => exact ih h
    | jbool b => exact ih h
    | jnum lit => exact ih h
    | jstr s => exact ih h
    | jarr elems => exact ih h

theorem parse_error_kinds {inp : CookieInput} {i : Bool} {e : PyErr}
    (h : parse_browser_cookies_json inp i = .error e) :
    (∃ m, e = .valueError m) ∨ ∃ m, e = .attributeError m := by
  rw [parse_decoded] at h
  cases hd : decodeInput inp with
  | none => rw [hd] at h; exact .inl ⟨_, (Except.error.inj h).symm⟩
  | some v =>
    rw [hd] at h
    cases v with
    | jarr cs =>
      dsimp only at h
      by_cases hemp : cs.isEmpty
      · rw [if_pos hemp] at h
        exact .inl ⟨_, (Except.error.inj h).symm⟩
      · rw [if_neg hemp] at h
        cases hl : cookieLoop i cs with
        | error e' =>
          rw [hl] at h
          obtain ⟨m, hm⟩ := cookieLoop_error_attr hl
          exact .inr ⟨m, (Except.error.inj h) ▸ hm⟩
        | ok pairs =>
          rw [hl] at h
          dsimp only at h
          by_cases hp : pairs = []
          · rw [if_pos hp] at h
            exact .inl ⟨_, (Except.error.inj h).symm⟩
          · rw [if_neg hp] at h
            exact Except.noConfusion h
    | null => exact .inl ⟨_, (Except.error.inj h).symm⟩
    | jbool b => exact .inl ⟨_, (Except.error.inj h).symm⟩
    | jnum lit => exact .inl ⟨_, (Except.error.inj h).symm⟩
    | jstr s => exact .inl ⟨_, (Except.error.inj h).symm⟩
    | jobj members => exact .inl ⟨_, (Except.error.inj h).symm⟩

theorem parse_ok_eq {inp : CookieInput} {i : Bool} {out : List Char}
    (h : parse_browser_cookies_json inp i = .ok out) :
    ∃ xs, decodeInput inp = some (.jarr xs) ∧ xs ≠ [] ∧ survivingPairs i xs ≠ [] ∧
      out = pyJoin "; ".toList ((survivingPairs i xs).map fmtPair) := by
  rw [parse_decoded] at h
  cases hd : decodeInput inp with
  | none => rw [hd] at h; exact Except.noConfusion h
  | some v =>
    rw [hd] at h
    cases v with
    | jarr cs =>
      dsimp only at h
      by_cases hemp : cs.isEmpty
      · rw [if_pos hemp] at h; exact Except.noConfusion h
      · rw [if_neg hemp] at h
        cases hl : cookieLoop i cs with
        | error e => rw [hl] at h; exact Except.noConfusion h
        | ok pairs =>
          rw [hl] at h
          dsimp only at h
          by_cases hp : pairs = []
          · rw [if_pos hp] at h; exact Except.noConfusion h
          · rw [if_neg hp] at h
            have hpairs := cookieLoop_ok_eq hl
            refine ⟨cs, rfl, by simpa using hemp, ?_, ?_⟩
            · intro hcontra
              exact hp (by rw [hpairs, hcontra, List.map_nil])
            · rw [← hpairs]
              exact (Except.ok.inj h).symm
    | null => exact Except.noConfusion h
    | jbool b => exact Except.noConfusion h
    | jnum lit => exact Except.noConfusion h
    | jstr s => exact Except.noConfusion h
    | jobj members => exact Except.noConfusion h

theorem parse_ok_intro {xs : List JValue} {i : Bool}
    (hwt : ∀ c ∈ xs, entryWellTyped c = true) (hne : xs ≠ [])
    (hsv : survivingPairs i xs ≠ []) :
    parse_browser_cookies_json (.entries xs) i =
      .ok (pyJoin "; ".toList ((survivingPairs i xs).map fmtPair)) := by
  rw [parse_decoded]
  show (if xs.isEmpty then _ else _ : Except PyErr (List Char)) = _
  rw [if_neg (by simpa using hne), cookieLoop_of_wellTyped hwt]
  dsimp only
  rw [if_neg (by simpa using hsv)]

theorem parse_no_fnf {inp : CookieInput} {i : Bool} {m : String} :
    parse_browser_cookies_json inp i ≠ .error (.fileNotFoundError m) := by
  intro h
  rcases parse_error_kinds h with ⟨m', hm⟩ | ⟨m', hm⟩ <;> exact PyErr.noConfusion hm

/-! ## Lemmas about `batchLoop` -/

theorem batchLoop_no_attr {i : Bool} {lines : List (List Char)}
    (h : ∀ l ∈ lines, isAttributeError (parse_browser_cookies_json (.text l) i) = false) :
    batchLoop i lines =
      .ok (lines.filterMap (fun l => (parse_browser_cookies_json (.text l) i).toOption)) := by
  induction lines with
  | nil => rfl
  | cons l rest ih =>
    have hrest := ih (fun l' hl' => h l' (List.mem_cons_of_mem _ hl'))
    simp only [batchLoop, List.filterMap_cons]
    cases hp : parse_browser_cookies_json (.text l) i with
    | ok s =>
      rw [hrest]
      rfl
    | error e =>
      cases e with
      | valueError m => simp [Except.toOption, hrest]
      | attributeError m =>
        have hl := h l (List.mem_cons_self l rest)
        rw [hp] at hl
        simp [isAttributeError] at hl
      | fileNotFoundError m => exact absurd hp parse_no_fnf

/-! ## Helper lemmas shared by the claim theorems -/

theorem extract_eq_nil_of_no_eq {s : List Char} (h : ∀ c ∈ s, c ≠ '=') :
    extract_cookie_info s = [] := by
  rw [extract_cookie_info]
  have hseg : ∀ seg ∈ splitOnChar ';' s, (pyStrip seg).contains '=' = false := by
    intro seg hs
    cases hct : (pyStrip seg).contains '=' with
    | false => rfl
    | true =>
      exfalso
      rw [List.contains] at hct
      exact h '=' (mem_of_mem_splitOnChar hs (mem_pyStrip (List.mem_of_elem_eq_true hct))) rfl
  have : ∀ (L : List (List Char)) (d : List (List Char × List Char)),
      (∀ seg ∈ L, (pyStrip seg).contains '=' = false) → L.foldl extractStep d = d := by
    intro L
    induction L with
    | nil => intro d _; rfl
    | cons seg rest ih =>
      intro d hL
      rw [List.foldl_cons, extractStep, if_neg (by rw [hL seg (List.mem_cons_self seg rest)]; simp)]
      exact ih d (fun q hq => hL q (List.mem_cons_of_mem seg hq))
  exact this _ [] hseg

theorem entries_eq_of_decode {xs xs' : List JValue}
    (hd : decodeInput (.entries xs) = some (.jarr xs')) : xs' = xs :=
  (JValue.jarr.inj (Option.some.inj hd)).symm

theorem pyStrip_nil_all_space {l : List Char} (h : pyStrip l = []) :
    ∀ c ∈ l, isPySpace c = true := by
  intro c hc
  rw [pyStrip, rstrip] at h
  have h1 : (lstrip l).reverse.dropWhile isPySpace = [] := by
    have := congrArg List.reverse h
    rwa [List.reverse_reverse, List.reverse_nil] at this
  have h2 : ∀ d ∈ lstrip l, isPySpace d = true := by
    intro d hd
    exact List.dropWhile_eq_nil_iff.mp h1 d (List.mem_reverse.mpr hd)
  have hsplit := List.takeWhile_append_dropWhile (p := isPySpace) (l := l)
  rw [← hsplit] at hc
  rcases List.mem_append.mp hc with h3 | h4
  · exact List.mem_takeWhile_imp h3
  · exact h2 c h4

theorem extract_some_strip_ne {cookie k sid : List Char}
    (h : dictGet (extract_cookie_info cookie) k = some sid) :
    (pyStrip cookie).isEmpty = false := by
  cases hemp : (pyStrip cookie).isEmpty with
  | false => rfl
  | true =>
    exfalso
    have hnil : pyStrip cookie = [] := List.isEmpty_iff.mp hemp
    have hnoeq : ∀ c ∈ cookie, c ≠ '=' := by
      intro c hc hcontra
      have := pyStrip_nil_all_space hnil c hc
      rw [hcontra] at this
      exact absurd this (by decide)
    rw [extract_eq_nil_of_no_eq hnoeq] at h
    exact Option.noConfusion h

/-! ## Claim theorems -/

/-- C1 (counterexample): the round trip fails as universally stated.  The
single entry `{name: "a", value: "x;y=z"}` has a non-empty trimmed name and
value, `parse_browser_cookies_json` keeps the pair `(a, x;y=z)`, but
`extract_cookie_info` splits the produced string at the `;` inside the
value and returns `{a: x, y: z}`, so the value does not survive. -/
theorem claim_C1_counterexample :
    parse_browser_cookies_json
      (.entries [JValue.jobj [("name".toList, JValue.jstr "a".toList),
                              ("value".toList, JValue.jstr "x;y=z".toList)]]) true =
      .ok "a=x;y=z".toList ∧
    survivingPairs true
      [JValue.jobj [("name".toList, JValue.jstr "a".toList),
                    ("value".toList, JValue.jstr "x;y=z".toList)]] =
      [("a".toList, "x;y=z".toList)] ∧
    extract_cookie_info "a=x;y=z".toList ≠ [("a".toList, "x;y=z".toList)] ∧
    extract_cookie_info "a=x;y=z".toList = [("a".toList, "x".toList), ("y".toList, "z".toList)] :=
  ⟨rfl, rfl, by decide, rfl⟩

/-- C1 (amended): applying `parse_browser_cookies_json` and then
`extract_cookie_info` yields back exactly the (name, value) pair of every
surviving entry — provided additionally that no surviving name contains
`'='` or `';'`, no surviving value contains `';'`, and the surviving names
are pairwise distinct. -/
theorem claim_C1 {xs : List JValue} {out : List Char}
    (h : parse_browser_cookies_json (.entries xs) true = .ok out)
    (hsem : ∀ p ∈ survivingPairs true xs,
      (∀ c ∈ p.1, c ≠ ';' ∧ c ≠ '=') ∧ ∀ c ∈ p.2, c ≠ ';')
    (hnd : ((survivingPairs true xs).map Prod.fst).Nodup) :
    extract_cookie_info out = survivingPairs true xs := by
  obtain ⟨xs', hd, hne, hsv, hout⟩ := parse_ok_eq h
  cases entries_eq_of_decode hd
  rw [hout]
  exact extract_pyJoin hsv (fun p hp => survivingPairs_stripped p hp) hsem hnd

/-- Witness for C1 at a concrete two-entry input. -/
theorem claim_C1_witness :
    extract_cookie_info "sessionid=123%3Axxx; mid=yyy".toList =
      survivingPairs true
        [JValue.jobj [("name".toList, JValue.jstr "sessionid".toList),
                      ("value".toList, JValue.jstr "123%3Axxx".toList)],
         JValue.jobj [("name".toList, JValue.jstr "mid".toList),
                      ("value".toList, JValue.jstr "yyy".toList)]] :=
  claim_C1 (by rfl) (by decide) (by decide)

/-- C3: every accepted entry sequence produces exactly the `"; "`-join of
the `name=value` pairs of the surviving entries, trimmed, in input order,
duplicates kept (`survivingPairs` states that pair sequence). -/
theorem claim_C3 {xs : List JValue} {include_all : Bool} {out : List Char}
    (h : parse_browser_cookies_json (.entries xs) include_all = .ok out) :
    out = pyJoin "; ".toList ((survivingPairs include_all xs).map fmtPair) := by
  obtain ⟨xs', hd, _, _, hout⟩ := parse_ok_eq h
  cases entries_eq_of_decode hd
  exact hout

/-- Witness for C3 at an input with a duplicated name. -/
theorem claim_C3_witness :
    "a=1; a=2".toList = pyJoin "; ".toList
      ((survivingPairs true
        [JValue.jobj [("name".toList, JValue.jstr "a".toList),
                      ("value".toList, JValue.jstr "1".toList)],
         JValue.jobj [("name".toList, JValue.jstr " a ".toList),
                      ("value".toList, JValue.jstr "2".toList)]]).map fmtPair) :=
  claim_C3 (by rfl)

/-- C4: whenever the `include_all = false` call succeeds, its output is
exactly the essential-name subsequence of the `include_all = true` output,
which also succeeds; in particular the filtered output never contains a
non-essential name and never contains a pair absent from the unfiltered
output. -/
theorem claim_C4 {xs : List JValue} {filtered : List Char}
    (h : parse_browser_cookies_json (.entries xs) false = .ok filtered) :
    parse_browser_cookies_json (.entries xs) true =
      .ok (pyJoin "; ".toList ((survivingPairs true xs).map fmtPair)) ∧
    filtered = pyJoin "; ".toList
      (((survivingPairs true xs).filter
        (fun p => essential_cookies.contains p.1)).map fmtPair) := by
  obtain ⟨xs', hd, hne, hsv, hout⟩ := parse_ok_eq h
  cases entries_eq_of_decode hd
  have hwt : ∀ c ∈ xs, entryWellTyped c = true := by
    rw [parse_decoded] at h
    simp only [decodeInput] at h
    rw [if_neg (by simpa using hne)] at h
    cases hl : cookieLoop false xs with
    | error e => rw [hl] at h; exact Except.noConfusion h
    | ok pairs => exact cookieLoop_ok_wellTyped hl
  have hsvt : survivingPairs true xs ≠ [] := by
    intro hcontra
    rw [survivingPairs_false_eq_filter, hcontra, List.filter_nil] at hsv
    exact hsv rfl
  refine ⟨parse_ok_intro hwt hne hsvt, ?_⟩
  rw [hout, survivingPairs_false_eq_filter]

/-- Witness for C4 at an input mixing essential and non-essential names. -/
theorem claim_C4_witness :
    parse_browser_cookies_json
      (.entries [JValue.jobj [("name".toList, JValue.jstr "sessionid".toList),
                              ("value".toList, JValue.jstr "x".toList)],
                 JValue.jobj [("name".toList, JValue.jstr "foo".toList),
                              ("value".toList, JValue.jstr "y".toList)],
                 JValue.jobj [("name".toList, JValue.jstr "mid".toList),
                              ("value".toList, JValue.jstr "z".toList)]]) true =
      .ok (pyJoin "; ".toList
        ((survivingPairs true
          [JValue.jobj [("name".toList, JValue.jstr "sessionid".toList),
                        ("value".toList, JValue.jstr "x".toList)],
           JValue.jobj [("name".toList, JValue.jstr "foo".toList),
                        ("value".toList, JValue.jstr "y".toList)],
           JValue.jobj [("name".toList, JValue.jstr "mid".toList),
                        ("value".toList, JValue.jstr "z".toList)]]).map fmtPair)) ∧
    "sessionid=x; mid=z".toList = pyJoin "; ".toList
      (((survivingPairs true
        [JValue.jobj [("name".toList, JValue.jstr "sessionid".toList),
                      ("value".toList, JValue.jstr "x".toList)],
         JValue.jobj [("name".toList, JValue.jstr "foo".toList),
                      ("value".toList, JValue.jstr "y".toList)],
         JValue.jobj [("name".toList, JValue.jstr "mid".toList),
                      ("value".toList, JValue.jstr "z".toList)]]).filter
        (fun p => essential_cookies.contains p.1)).map fmtPair) :=
  claim_C4 (by rfl)

/-- C10: `extract_cookie_info` is total by construction (it returns a
mapping for every input string), and a string without `'='` — in
particular the empty string — yields the empty mapping, since segments
without `'='` contribute nothing. -/
theorem claim_C10 (s : List Char) (h : ∀ c ∈ s, c ≠ '=') :
    extract_cookie_info s = [] :=
  extract_eq_nil_of_no_eq h

/-- Witness for C10 on the empty string and on an `'='`-free string. -/
theorem claim_C10_witness :
    extract_cookie_info "".toList = [] ∧ extract_cookie_info "abc; def".toList = [] :=
  ⟨claim_C10 _ (by decide), claim_C10 _ (by decide)⟩

/-- C2 (counterexample): the claim's "on any other input satisfying the
valid-entry condition it returns a cookie string without error" fails.  The
decoded list below has a valid second entry (so the failure condition does
not hold), yet the code raises `AttributeError` — not `InvalidFormat`, and
not a successful return — because the first entry's `name` field is the
number `1` and `.strip()` is called on it. -/
theorem claim_C2_counterexample :
    invalid_input_condition
      (.entries [JValue.jobj [("name".toList, JValue.jnum "1".toList),
                              ("value".toList, JValue.jstr "x".toList)],
                 JValue.jobj [("name".toList, JValue.jstr "a".toList),
                              ("value".toList, JValue.jstr "b".toList)]]) = false ∧
    parse_browser_cookies_json
      (.entries [JValue.jobj [("name".toList, JValue.jnum "1".toList),
                              ("value".toList, JValue.jstr "x".toList)],
                 JValue.jobj [("name".toList, JValue.jstr "a".toList),
                              ("value".toList, JValue.jstr "b".toList)]]) true =
      .error (.attributeError "object has no attribute 'strip'") :=
  ⟨rfl, rfl⟩

/-- C2 (amended): `parse_browser_cookies_json("[]")`, `("{}")`, `("")` and
`("not json")` all fail with a `ValueError` (`InvalidFormat`); and on every
input whose entries carry only string (or absent) `name`/`value` fields,
the call fails with `InvalidFormat` exactly when the input is not valid
JSON, not a sequence, an empty sequence, or has no entry with a non-empty
trimmed name and value — and returns a cookie string otherwise.  (Without
the string-typed restriction an entry with a non-string field raises
`AttributeError` instead, see the counterexample.) -/
theorem claim_C2 :
    (∃ m, parse_browser_cookies_json (.text "[]".toList) true = .error (.valueError m)) ∧
    (∃ m, parse_browser_cookies_json (.text "{}".toList) true = .error (.valueError m)) ∧
    (∃ m, parse_browser_cookies_json (.text "".toList) true = .error (.valueError m)) ∧
    (∃ m, parse_browser_cookies_json (.text "not json".toList) true = .error (.valueError m)) ∧
    ∀ inp : CookieInput, inputWellTyped inp = true →
      (((∃ m, parse_browser_cookies_json inp true = .error (.valueError m)) ↔
          invalid_input_condition inp = true) ∧
        (invalid_input_condition inp = false →
          ∃ out, parse_browser_cookies_json inp true = .ok out)) := by
  refine ⟨⟨"No cookies found in data", rfl⟩,
    ⟨"Cookie data must be a JSON array/list", rfl⟩,
    ⟨"Invalid JSON format", rfl⟩,
    ⟨"Invalid JSON format", rfl⟩, ?_⟩
  intro inp hwt
  rw [parse_decoded, invalid_input_condition]
  cases hd : decodeInput inp with
  | none =>
    exact ⟨⟨fun _ => rfl, fun _ => ⟨_, rfl⟩⟩, fun hcontra => Bool.noConfusion hcontra⟩
  | some v =>
    cases v with
    | jarr cs =>
      rw [inputWellTyped, hd] at hwt
      have hwt' : ∀ c ∈ cs, entryWellTyped c = true := List.all_eq_true.mp hwt
      dsimp only
      rw [cookieLoop_of_wellTyped hwt']
      by_cases hemp : cs.isEmpty
      · rw [if_pos hemp]
        simp [hemp]
      · rw [if_neg hemp]
        dsimp only
        by_cases hsv : (survivingPairs true cs).map fmtPair = []
        · rw [if_pos hsv]
          have : (survivingPairs true cs).isEmpty = true := by
            rw [List.map_eq_nil_iff] at hsv
            simp [hsv]
          refine ⟨⟨fun _ => by simp [this], fun _ => ⟨_, rfl⟩⟩, ?_⟩
          intro hcontra
          rw [Bool.or_eq_false_iff] at hcontra
          rw [this] at hcontra
          exact Bool.noConfusion hcontra.2
        · rw [if_neg hsv]
          have : (survivingPairs true cs).isEmpty = false := by
            rw [List.map_eq_nil_iff] at hsv
            simpa using hsv
          constructor
          · constructor
            · rintro ⟨m, hm⟩
              exact Except.noConfusion hm
            · intro hcond
              exfalso
              rw [Bool.or_eq_true_iff] at hcond
              rcases hcond with h1 | h2
              · exact hemp (by simpa using h1)
              · rw [this] at h2
                exact Bool.noConfusion h2
          · intro _
            exact ⟨_, rfl⟩
    | null => exact ⟨⟨fun _ => rfl, fun _ => ⟨_, rfl⟩⟩, fun hcontra => Bool.noConfusion hcontra⟩
    | jbool b => exact ⟨⟨fun _ => rfl, fun _ => ⟨_, rfl⟩⟩, fun hcontra => Bool.noConfusion hcontra⟩
    | jnum lit => exact ⟨⟨fun _ => rfl, fun _ => ⟨_, rfl⟩⟩, fun hcontra => Bool.noConfusion hcontra⟩
    | jstr s => exact ⟨⟨fun _ => rfl, fun _ => ⟨_, rfl⟩⟩, fun hcontra => Bool.noConfusion hcontra⟩
    | jobj members =>
      exact ⟨⟨fun _ => rfl, fun _ => ⟨_, rfl⟩⟩, fun hcontra => Bool.noConfusion hcontra⟩

/-- Witness for C2's quantified part at a concrete well-typed input. -/
theorem claim_C2_witness :
    ∃ out, parse_browser_cookies_json
      (.entries [JValue.jobj [("name".toList, JValue.jstr "mid".toList),
                              ("value".toList, JValue.jstr "yyy".toList)]]) true = .ok out :=
  (claim_C2.2.2.2.2
    (.entries [JValue.jobj [("name".toList, JValue.jstr "mid".toList),
                            ("value".toList, JValue.jstr "yyy".toList)]])
    (by rfl)).2 (by rfl)

/-- C7: `get_sessionid_from_json` never raises (it is a total function in
the model) and returns the `value` field of the first entry named
`sessionid`, with an absent result when the input is malformed JSON, not a
sequence, or has no such entry. -/
theorem claim_C7 (inp : CookieInput) :
    get_sessionid_from_json inp =
      match decodeInput inp with
      | some (.jarr xs) =>
        match xs.find? isSessionidEntry with
        | some (.jobj kvs) => objGet kvs "value".toList
        | _ => none
      | _ => none := by
  have hfind : ∀ xs : List JValue, findSessionid xs =
      (match xs.find? isSessionidEntry with
       | some (.jobj kvs) => objGet kvs "value".toList
       | _ => none) := by
    intro xs
    induction xs with
    | nil => rfl
    | cons c rest ih =>
      by_cases hse : isSessionidEntry c = true
      · rw [List.find?_cons_of_pos _ hse]
        cases c with
        | jobj kvs => simp only [findSessionid, if_pos hse]
        | null => exact Bool.noConfusion hse
        | jbool b => exact Bool.noConfusion hse
        | jnum lit => exact Bool.noConfusion hse
        | jstr s => exact Bool.noConfusion hse
        | jarr elems => exact Bool.noConfusion hse
      · rw [List.find?_cons_of_neg _ (by simpa using hse)]
        rw [show findSessionid (c :: rest) = findSessionid rest from by
          simp only [findSessionid, if_neg hse]]
        exact ih
  cases inp with
  | text s =>
    rw [get_sessionid_from_json]
    simp only [decodeInput]
    cases jsonParse s with
    | none => rfl
    | some v =>
      cases v with
      | jarr xs => exact hfind xs
      | null => rfl
      | jbool b => rfl
      | jnum lit => rfl
      | jstr str => rfl
      | jobj members => rfl
  | entries xs => exact hfind xs

/-- C5: `parse_cookies_file` fails with `FileNotFoundError` when the file
does not exist, with a `ValueError` (`InvalidFormat`) when it has no
non-blank line, with an out-of-range `ValueError` when the 1-indexed
`line_number` is outside `[1, n]`, and otherwise returns the result of
parsing exactly that non-blank line. -/
theorem claim_C5 (path : String) (incl : Bool) :
    (∀ ln, parse_cookies_file path none ln incl =
        .error (.fileNotFoundError ("Cookie file not found: " ++ path))) ∧
    (∀ c ln, fileLines c = [] →
        parse_cookies_file path (some c) ln incl =
          .error (.valueError ("No cookie data found in file: " ++ path))) ∧
    (∀ c (n : Int), fileLines c ≠ [] → (n < 1 ∨ n > ((fileLines c).length : Int)) →
        parse_cookies_file path (some c) (some n) incl =
          .error (.valueError ("Line number " ++ toString n ++
            " out of range (file has " ++ toString (fileLines c).length ++ " lines)"))) ∧
    (∀ c (n : Int), fileLines c ≠ [] → 1 ≤ n → n ≤ ((fileLines c).length : Int) →
        parse_cookies_file path (some c) (some n) incl =
          (parse_browser_cookies_json
            (.text ((fileLines c).getD (n - 1).toNat [])) incl).map Sum.inl) := by
  refine ⟨fun ln => rfl, ?_, ?_, ?_⟩
  · intro c ln h
    simp only [parse_cookies_file]
    rw [if_pos h]
  · intro c n hne hout
    simp only [parse_cookies_file]
    rw [if_neg hne, if_pos hout]
  · intro c n h1 h2 h3
    simp only [parse_cookies_file]
    rw [if_neg h1, if_neg (by omega)]
    cases parse_browser_cookies_json (.text ((fileLines c).getD (n - 1).toNat [])) incl with
    | ok s => rfl
    | error e => rfl

/-- Witness for C5: a two-line file read at `line_number = 2`. -/
theorem claim_C5_witness :
    parse_cookies_file "cookies.txt"
      (some "[\x7b\"name\":\"a\",\"value\":\"b\"\x7d]\n[\x7b\"name\":\"c\",\"value\":\"d\"\x7d]".toList)
      (some 2) true =
    (parse_browser_cookies_json
      (.text ((fileLines
        "[\x7b\"name\":\"a\",\"value\":\"b\"\x7d]\n[\x7b\"name\":\"c\",\"value\":\"d\"\x7d]".toList).getD
          ((2 : Int) - 1).toNat [])) true).map Sum.inl :=
  (claim_C5 "cookies.txt" true).2.2.2 _ 2 (by decide) (by decide) (by decide)

/-- C6 (counterexample): a failing line is not always skipped non-fatally.
In the two-line file below the second line parses successfully, so the
claim says the call must succeed with that line's cookie string; but the
first line raises `AttributeError` (its `name` field is the number `1`),
which `except ValueError` does not catch, so the whole call fails. -/
theorem claim_C6_counterexample :
    parse_browser_cookies_json
      (.text "[\x7b\"name\": \"a\", \"value\": \"b\"\x7d]".toList) true = .ok "a=b".toList ∧
    parse_cookies_file "f"
      (some "[\x7b\"name\": 1, \"value\": \"x\"\x7d]\n[\x7b\"name\": \"a\", \"value\": \"b\"\x7d]".toList)
      none true =
      .error (.attributeError "object has no attribute 'strip'") :=
  ⟨rfl, rfl⟩

/-- C6 (amended): when `parse_cookies_file` is called without a
`line_number` on a file with at least one non-blank line, and no line
raises `AttributeError`, every line is parsed independently, lines failing
with `ValueError` are skipped non-fatally, the result is the ordered
sequence of cookie strings of the successfully parsed lines, and the call
fails with `InvalidFormat` exactly when no line parses successfully.
(A line raising `AttributeError` aborts the whole call instead, see the
counterexample.) -/
theorem claim_C6 {path : String} {c : List Char} {incl : Bool}
    (hne : fileLines c ≠ [])
    (hattr : ∀ l ∈ fileLines c,
      isAttributeError (parse_browser_cookies_json (.text l) incl) = false) :
    ((fileLines c).filterMap
        (fun l => (parse_browser_cookies_json (.text l) incl).toOption) ≠ [] →
      parse_cookies_file path (some c) none incl =
        .ok (.inr ((fileLines c).filterMap
          (fun l => (parse_browser_cookies_json (.text l) incl).toOption)))) ∧
    ((fileLines c).filterMap
        (fun l => (parse_browser_cookies_json (.text l) incl).toOption) = [] →
      parse_cookies_file path (some c) none incl =
        .error (.valueError "Failed to parse any valid cookies from file")) := by
  simp only [parse_cookies_file]
  rw [if_neg hne, batchLoop_no_attr hattr]
  dsimp only
  constructor
  · intro hsucc
    rw [if_neg hsucc]
  · intro hsucc
    rw [if_pos hsucc]

/-- Witness for C6: a file with one unparsable (ValueError) line and one
good line yields exactly the good line's cookie string. -/
theorem claim_C6_witness :
    parse_cookies_file "f" (some "junk\n[\x7b\"name\":\"a\",\"value\":\"b\"\x7d]".toList) none true =
      .ok (.inr ((fileLines "junk\n[\x7b\"name\":\"a\",\"value\":\"b\"\x7d]".toList).filterMap
        (fun l => (parse_browser_cookies_json (.text l) true).toOption))) :=
  (claim_C6 (by decide) (by decide)).1 (by decide)

/-- C8: a cookie string is accepted for login exactly when it contains a
`sessionid` entry whose raw value has at least the minimum length and
whose leading decimal-digit run is non-empty and followed by a non-digit,
and that digit run is returned as the user id.  The spec fixes no numeric
minimum, so the statement holds for every minimum length compatible with
the repository's tests (greater than 5, at most 15): `"short"` fails the
length check, `"123456789%3Axxx"` yields `"123456789"`, and a sessionid
without leading digits fails with the cannot-extract-user_id error. -/
theorem claim_C8 (minLen : Nat) (h5 : 5 < minLen) (h15 : minLen ≤ 15) :
    (∀ cookie uid, login_by_cookie minLen cookie = .ok uid ↔
      ∃ sid, dictGet (extract_cookie_info cookie) "sessionid".toList = some sid ∧
        minLen ≤ sid.length ∧ extract_user_id sid = some uid) ∧
    login_by_cookie minLen "sessionid=short".toList =
      .error (.valueError "Invalid sessionid length") ∧
    login_by_cookie minLen "sessionid=123456789%3Axxx".toList = .ok "123456789".toList ∧
    login_by_cookie minLen
        "sessionid=invalid_sessionid_without_userid_prefix_1234567890".toList =
      .error (.valueError "Cannot extract user_id from sessionid") := by
  refine ⟨?_, ?_, ?_, ?_⟩
  · intro cookie uid
    constructor
    · intro h
      rw [login_by_cookie] at h
      by_cases hemp : (pyStrip cookie).isEmpty
      · rw [if_pos hemp] at h
        exact Except.noConfusion h
      · rw [if_neg hemp] at h
        cases hg : dictGet (extract_cookie_info cookie) "sessionid".toList with
        | none => rw [hg] at h; exact Except.noConfusion h
        | some sid =>
          rw [hg] at h
          dsimp only at h
          by_cases hlen : sid.length < minLen
          · rw [if_pos hlen] at h
            exact Except.noConfusion h
          · rw [if_neg hlen] at h
            cases hx : extract_user_id sid with
            | none => rw [hx] at h; exact Except.noConfusion h
            | some uid' =>
              rw [hx] at h
              exact ⟨sid, rfl, by omega, by rw [hx, Except.ok.inj h]⟩
    · rintro ⟨sid, hg, hlen, hx⟩
      have hemp := extract_some_strip_ne hg
      rw [login_by_cookie, if_neg (by simp [hemp]), hg]
      dsimp only
      rw [if_neg (by omega), hx]
  · rw [login_by_cookie, if_neg (by decide),
      show dictGet (extract_cookie_info "sessionid=short".toList) "sessionid".toList =
        some "short".toList from rfl]
    dsimp only
    rw [if_pos (show ("short".toList).length < minLen by
      rw [show ("short".toList).length = 5 from rfl]; omega)]
  · rw [login_by_cookie, if_neg (by decide),
      show dictGet (extract_cookie_info "sessionid=123456789%3Axxx".toList)
        "sessionid".toList = some "123456789%3Axxx".toList from rfl]
    dsimp only
    rw [if_neg (show ¬("123456789%3Axxx".toList).length < minLen by
      rw [show ("123456789%3Axxx".toList).length = 15 from rfl]; omega)]
    rw [show extract_user_id "123456789%3Axxx".toList = some "123456789".toList from rfl]
  · rw [login_by_cookie, if_neg (by decide),
      show dictGet (extract_cookie_info
        "sessionid=invalid_sessionid_without_userid_prefix_1234567890".toList)
        "sessionid".toList =
        some "invalid_sessionid_without_userid_prefix_1234567890".toList from rfl]
    dsimp only
    rw [if_neg (show
      ¬("invalid_sessionid_without_userid_prefix_1234567890".toList).length < minLen by
      have : ("invalid_sessionid_without_userid_prefix_1234567890".toList).length = 50 := by
        decide
      omega)]
    rw [show extract_user_id
      "invalid_sessionid_without_userid_prefix_1234567890".toList = none from rfl]

/-- Witness for C8 at minimum length 10 (instagrapi-compatible). -/
theorem claim_C8_witness :
    login_by_cookie 10 "sessionid=123456789%3Axxx".toList = .ok "123456789".toList :=
  (claim_C8 10 (by decide) (by decide)).2.2.1

/-- C9: a saved session is restored identically through its username, its
numeric user id, the user id as a numeric string, and a cookie string
whose `sessionid` has that user id as its leading digit run. -/
theorem claim_C9 (store : SessionStore) (username : List Char) (uid : Nat)
    (dir : List Char) (record : JValue) (cookie sid : List Char)
    (hu : dictGet store.index username = some dir)
    (hid : dictGet store.index (toString uid).toList = some dir)
    (hf : dictGet store.files dir = some record)
    (hcu : containsSeq "sessionid=".toList username = false)
    (hcn : containsSeq "sessionid=".toList (toString uid).toList = false)
    (hsid : dictGet (extract_cookie_info cookie) "sessionid".toList = some sid)
    (hdig : leadingDigits sid = (toString uid).toList)
    (hcc : containsSeq "sessionid=".toList cookie = true)
    (hne : (toString uid).toList ≠ []) :
    restore_settings store (.ofString username) = .ok record ∧
    restore_settings store (.ofInt uid) = .ok record ∧
    restore_settings store (.ofString (toString uid).toList) = .ok record ∧
    restore_settings store (.ofString cookie) = .ok record := by
  have hlookup : lookupSession store (toString uid).toList = .ok record := by
    rw [lookupSession, hid]
    dsimp only
    rw [hf]
  refine ⟨?_, ?_, ?_, ?_⟩
  · rw [restore_settings, if_neg (by rw [hcu]; exact Bool.false_ne_true), lookupSession, hu]
    dsimp only
    rw [hf]
  · rw [restore_settings]
    exact hlookup
  · rw [restore_settings, if_neg (by rw [hcn]; exact Bool.false_ne_true)]
    exact hlookup
  · rw [restore_settings, if_pos hcc, hsid]
    dsimp only
    rw [hdig, if_neg (show ¬ ((toString uid).toList).isEmpty = true from
      fun hc => hne (List.isEmpty_iff.mp hc))]
    exact hlookup

/-- Witness for C9 at a concrete two-key store for user id 77. -/
theorem claim_C9_witness :
    restore_settings
      ⟨[("alice".toList, "alice".toList), ("77".toList, "alice".toList)],
       [("alice".toList, JValue.jnum "1".toList)]⟩
      (.ofString "sessionid=77%3Axyz; other=v".toList) = .ok (JValue.jnum "1".toList) :=
  (claim_C9
    ⟨[("alice".toList, "alice".toList), ("77".toList, "alice".toList)],
     [("alice".toList, JValue.jnum "1".toList)]⟩
    "alice".toList 77 "alice".toList (JValue.jnum "1".toList)
    "sessionid=77%3Axyz; other=v".toList "77%3Axyz".toList
    (by rfl) (by rfl) (by rfl) (by decide) (by decide) (by rfl) (by rfl)
    (by decide) (by decide)).2.2.2

end CookieParser
